import Mathlib

/-!
Shallow embedding of `qiniux/errors/errors.go` (package `errors`: stack-tracking
error frames, aggregate error lists, a typed NotFound error, and a bounded
argument-value renderer).

Modelling conventions:
* Go strings are modelled as Lean `String`, read as sequences of characters;
  Go's byte-indexed slicing (`val[:16]`, `len(val)`) is modelled character-wise
  (they coincide on ASCII data).
* The open Go `error` interface is modelled as the closed inductive `GoError`,
  whose constructors cover every error shape the package manipulates: an opaque
  leaf (`errors.New`), `*NotFound`, `List`, `*Frame`, and `custom` — an
  arbitrary external error type with an optional `Summary() string` capability
  and an optional `Unwrap() error` capability, as the chain-walking code only
  ever observes those capabilities on foreign errors.
* An argument value (`interface{}`) is modelled as the closed `GoVal`, one
  constructor per branch of `appendValue`'s `reflect.Kind` dispatch.
-/

namespace QiniuErrors

/-- An argument value (`interface{}`), one constructor per class of
`reflect.Kind` that `appendValue` distinguishes:
* `goNil`: the nil interface value;
* `vbool`/`vint`: kinds in `Bool..Complex128` whose `fmt.Sprint` output we
  compute (booleans, signed integers);
* `vnum`: the remaining kinds in `Bool..Complex128` (unsigned, float, complex),
  carrying their `fmt.Sprint` rendering as an opaque string;
* `vstr`: kind `String` whose dynamic type is exactly `string` (the only
  string-kind values on which the `arg.(string)` assertion succeeds; named
  string-kind types are outside this universe — see `GoValK` below);
* `varr`: kind `Array`;
* `vstruct`: kind `Struct`;
* `vptr`: every other kind (chan, func, map, pointer, slice, unsafe pointer),
  carrying the `reflect.Value.Pointer()` address. -/
inductive GoVal where
  | goNil : GoVal
  | vbool (b : Bool) : GoVal
  | vint (n : Int) : GoVal
  | vnum (rendered : String) : GoVal
  | vstr (s : String) : GoVal
  | varr : GoVal
  | vstruct : GoVal
  | vptr (addr : Nat) : GoVal
deriving DecidableEq

/-- Two lowercase hex digits of a byte value (used by `\x` escapes). -/
def hexByte (n : Nat) : String :=
  String.mk [Nat.digitChar (n / 16 % 16), Nat.digitChar (n % 16)]

/-- Per-character escaping of Go's `strconv.Quote`: backslash escapes for
quote, backslash and the C control escapes, `\xhh` for other control bytes.
Printable characters (including printable non-ASCII runes) are kept verbatim;
non-printable runes above 0x7f, which `strconv.Quote` would `\u`-escape, are
outside the alphabet this model is read on. -/
def quoteChar (c : Char) : String :=
  if c = '"' then "\\\""
  else if c = '\\' then "\\\\"
  else if c = Char.ofNat 7 then "\\a"
  else if c = Char.ofNat 8 then "\\b"
  else if c = Char.ofNat 12 then "\\f"
  else if c = '\n' then "\\n"
  else if c = '\r' then "\\r"
  else if c = '\t' then "\\t"
  else if c = Char.ofNat 11 then "\\v"
  else if c.toNat < 32 ∨ c.toNat = 127 then "\\x" ++ hexByte c.toNat
  else String.singleton c

/-- Concatenation of the per-character escapes. -/
def quoteBody : List Char → String
  | [] => ""
  | c :: cs => quoteChar c ++ quoteBody cs

/-- Go's `strconv.Quote`/`strconv.AppendQuote`: the escaped characters wrapped
in double quotes. -/
def goQuote (s : String) : String :=
  "\"" ++ quoteBody s.data ++ "\""

/-- Lowercase hexadecimal digits of `n` (Go's `strconv.AppendInt(b, n, 16)`
for a nonnegative value). -/
def hexDigits (n : Nat) : String :=
  String.mk (Nat.toDigits 16 n)

/-- `appendValue(b, arg)`: appends the bounded rendering of one argument value
to the buffer.
* nil interface → `"nil"`;
* kinds `Bool..Complex128` → `fmt.Sprint(arg)`;
* kind `String` → if longer than 32, keep the first 16 and last 16 characters
  around `"..."`, then `strconv.AppendQuote`;
* kind `Array` → `"Array"`; kind `Struct` → `"Struct"`;
* anything else → `v.Pointer()` in lowercase hex after `"0x"`. -/
def appendValue (b : String) (arg : GoVal) : String :=
  match arg with
  | .goNil => b ++ "nil"
  | .vbool v => b ++ (if v then "true" else "false")
  | .vint n => b ++ toString n
  | .vnum r => b ++ r
  | .vstr s =>
      let val := if s.length > 32 then s.take 16 ++ "..." ++ s.drop (s.length - 16) else s
      b ++ goQuote val
  | .varr => b ++ "Array"
  | .vstruct => b ++ "Struct"
  | .vptr addr => b ++ "0x" ++ hexDigits addr

/-- The full argument universe, refining `GoVal` at kind `String`: a Go value
with `v.Kind() == reflect.String` may have dynamic type exactly `string`
(`exact = true`) or a named type whose underlying kind is string, such as
`type Code string` (`exact = false`). The kind dispatch cannot tell them
apart, but the single-value type assertion `arg.(string)` can: it panics on
the named-type case. -/
inductive GoValK where
  | goNil : GoValK
  | vbool (b : Bool) : GoValK
  | vint (n : Int) : GoValK
  | vnum (rendered : String) : GoValK
  | vstr (s : String) (exact : Bool) : GoValK
  | varr : GoValK
  | vstruct : GoValK
  | vptr (addr : Nat) : GoValK
deriving DecidableEq

/-- `appendValue(b, arg)` over the full universe `GoValK`, with panics made
explicit: `none` models a run-time panic. The branch structure is the
source's; in the kind-`String` branch the assertion `arg.(string)` succeeds
only when the dynamic type is exactly `string`, and panics with an
interface-conversion error for a named string-kind type — the one branch
where the source can fail. -/
def appendValueK (b : String) : GoValK → Option String
  | .goNil => some (b ++ "nil")
  | .vbool v => some (b ++ (if v then "true" else "false"))
  | .vint n => some (b ++ toString n)
  | .vnum r => some (b ++ r)
  | .vstr s exact =>
      if exact then
        let val := if s.length > 32 then s.take 16 ++ "..." ++ s.drop (s.length - 16) else s
        some (b ++ goQuote val)
      else none
  | .varr => some (b ++ "Array")
  | .vstruct => some (b ++ "Struct")
  | .vptr addr => some (b ++ "0x" ++ hexDigits addr)

/-- `argsDetail(b, args)`: appends each argument's rendering, separated by
`", "` (the separator follows every argument but the last). -/
def argsDetail (b : String) : List GoVal → String
  | [] => b
  | a :: rest =>
    match rest with
    | [] => appendValue b a
    | _ => argsDetail (appendValue b a ++ ", ") rest

/-- The closed universe of error values the package manipulates.
* `leaf msg`: an opaque base error (`errors.New(msg)` or any foreign error
  without Summary/Unwrap capabilities), `Error()` returning `msg`;
* `notFound category`: `*NotFound`;
* `list es`: the aggregate `List` (`[]error`);
* `frame cause fn args code file line`: `*Frame` with its six fields
  `Err, Func, Args, Code, File, Line`;
* `custom msg summ cause`: an arbitrary external error type whose `Error()`
  returns `msg`, exposing a `Summary() string` capability exactly when
  `summ` is `some`, and an `Unwrap() error` capability exactly when `cause`
  is `some`. -/
inductive GoError where
  | leaf (msg : String) : GoError
  | notFound (category : String) : GoError
  | list (es : List GoError) : GoError
  | frame (cause : GoError) (fn : String) (args : List GoVal)
      (code : String) (file : String) (line : Int) : GoError
  | custom (msg : String) (summ : Option String) (cause : Option GoError) : GoError

/-- Whether the dynamic type assertion `err.(*Frame)` succeeds. -/
def isFrame : GoError → Bool
  | .frame _ _ _ _ _ _ => true
  | _ => false

mutual

/-- `err.Error()` for each error shape:
* a leaf/custom error returns its message;
* `(*NotFound).Error()` is `Category + " not found"`;
* `List.Error()` is empty for 0 elements, the single element's `Error()` for
  1 element, and the newline-join of the elements' `Error()`s for ≥ 2;
* `(*Frame).Error()` is `string(errorDetail(make([]byte, 0, 32), p))`. -/
def errMsg : GoError → String
  | .leaf msg => msg
  | .notFound category => category ++ " not found"
  | .custom msg _ _ => msg
  | .list [] => ""
  | .list [e] => errMsg e
  | .list es => String.intercalate "\n" (errMsgList es)
  | .frame cause fn args code file line => errorDetail "" cause fn args code file line
termination_by e => (sizeOf e, 0)
decreasing_by all_goals (simp_wf; try omega)

/-- The element-wise `v.Error()` pass of `List.Error()`'s join loop. -/
def errMsgList : List GoError → List String
  | [] => []
  | e :: es => errMsg e :: errMsgList es
termination_by es => (sizeOf es, 0)
decreasing_by all_goals (simp_wf; try omega)

/-- `errorDetail(b, p)` for a frame `p` with the given six fields: if the cause
is itself a `*Frame`, recurse into it first; otherwise append the cause's
`Error()` text and the stack banner. Then append this frame's own stack entry
`Func "(" args ")\n\t" File ":" Line " " Code "\n"`. -/
def errorDetail (b : String) (cause : GoError) (fn : String) (args : List GoVal)
    (code : String) (file : String) (line : Int) : String :=
  let b1 :=
    match cause with
    | .frame c2 fn2 args2 code2 file2 line2 => errorDetail b c2 fn2 args2 code2 file2 line2
    | c => b ++ errMsg c ++ "\n\n===> errors stack:\n"
  argsDetail (b1 ++ fn ++ "(") args ++ ")\n\t" ++ file ++ ":" ++ toString line ++ " " ++ code ++ "\n"
termination_by (sizeOf cause, 1)
decreasing_by all_goals (simp_wf; try omega)

end

mutual

/-- The package-level `Summary(err)` helper combined with the `Summary()`
methods it can dispatch to: if `err` exposes a `Summary() string` capability
(`*Frame`, `List`, or a capable custom error), use it, otherwise fall back to
`err.Error()`. `(*Frame).Summary()` is `Summary(p.Err)`; `List.Summary()`
follows `List.Error()`'s arity cases with `Summary(v)` per element; a custom
error's capability returns its stored summary string. -/
def summary : GoError → String
  | .frame cause _ _ _ _ _ => summary cause
  | .list [] => ""
  | .list [e] => summary e
  | .list es => String.intercalate "\n" (summaryList es)
  | .custom _ (some s) _ => s
  | .custom msg none _ => msg
  | .leaf msg => msg
  | .notFound category => category ++ " not found"
termination_by e => sizeOf e
decreasing_by all_goals (simp_wf; try omega)

/-- The element-wise `Summary(v)` pass of `List.Summary()`'s join loop. -/
def summaryList : List GoError → List String
  | [] => []
  | e :: es => summary e :: summaryList es
termination_by es => sizeOf es
decreasing_by all_goals (simp_wf; try omega)

end

/-- `Err(err)`: strip `*Frame` wrappers recursively, returning the innermost
non-Frame cause; any non-Frame error is returned unchanged. -/
def goErr : GoError → GoError
  | .frame cause _ _ _ _ _ => goErr cause
  | e => e

/-- `IsNotFound(err)`: loop — while the current error exposes an
`Unwrap() error` capability, replace it by its unwrapped cause; once none
remains, return whether the final value is a `*NotFound`. -/
def IsNotFound : GoError → Bool
  | .frame cause _ _ _ _ _ => IsNotFound cause
  | .custom _ _ (some c) => IsNotFound c
  | .notFound _ => true
  | _ => false

/-- `List.ToError()`: 1 element → that element; 0 elements → nil (`none`);
otherwise → the list value itself. -/
def toError : List GoError → Option GoError
  | [e] => some e
  | [] => none
  | es => some (.list es)

/-- `(*List).Add(err)`: append to the sequence. -/
def listAdd (p : List GoError) (err : GoError) : List GoError :=
  p ++ [err]

/-! ### Derived notions used to state the claims -/

/-- The fixed banner separating the root message from the stack entries. -/
def stackBanner : String := "\n\n===> errors stack:\n"

/-- One rendered stack entry, as `errorDetail` appends it for a frame with the
given five metadata fields. -/
def stackEntry (fn : String) (args : List GoVal) (code : String) (file : String)
    (line : Int) : String :=
  fn ++ "(" ++ argsDetail "" args ++ ")\n\t" ++ file ++ ":" ++ toString line ++ " " ++ code ++ "\n"

/-- The five non-cause fields of one frame, used to describe wrap chains. -/
structure FrameMeta where
  fn : String
  args : List GoVal
  code : String
  file : String
  line : Int

/-- Wrap `root` in one frame per element of `ms`; the HEAD of `ms` is the
outermost frame, so the last element is the innermost (first wrap). -/
def chainOut (root : GoError) : List FrameMeta → GoError
  | [] => root
  | m :: ms => .frame (chainOut root ms) m.fn m.args m.code m.file m.line

/-- The stack entry of one `FrameMeta`. -/
def stackEntryM (m : FrameMeta) : String :=
  stackEntry m.fn m.args m.code m.file m.line

/-- Plain concatenation of a list of strings. -/
def strConcat : List String → String
  | [] => ""
  | s :: ss => s ++ strConcat ss

/-- The exhaustive result of the chain-unwrap loop: follow the
`Unwrap() error` capability (`*Frame` to its cause, a capable custom error to
its stored cause) until none remains, and return the final value. -/
def unwrapAll : GoError → GoError
  | .frame cause _ _ _ _ _ => unwrapAll cause
  | .custom _ _ (some c) => unwrapAll c
  | e => e

/-- Whether the dynamic type assertion `err.(*NotFound)` succeeds. -/
def isNotFoundLeaf : GoError → Bool
  | .notFound _ => true
  | _ => false

/-- Number of nested `*Frame` wrappers around the innermost non-Frame cause. -/
def frameDepth : GoError → Nat
  | .frame cause _ _ _ _ _ => frameDepth cause + 1
  | _ => 0

/-- Fuel-indexed form of `errorDetail`: the frame-chain recursion of step 1
consumes one unit of fuel per nested frame and reports `none` when the fuel is
exhausted, so producing `some` at finite fuel exhibits termination of the
recursion on the acyclic chain. -/
def errorDetailFuel : Nat → String → GoError → String → List GoVal → String → String → Int →
    Option String
  | 0, _, _, _, _, _, _, _ => none
  | fuel + 1, b, cause, fn, args, code, file, line =>
    let ob1 : Option String :=
      match cause with
      | .frame c2 fn2 args2 code2 file2 line2 => errorDetailFuel fuel b c2 fn2 args2 code2 file2 line2
      | c => some (b ++ errMsg c ++ "\n\n===> errors stack:\n")
    match ob1 with
    | none => none
    | some b1 =>
        some (argsDetail (b1 ++ fn ++ "(") args ++ ")\n\t" ++ file ++ ":" ++ toString line
          ++ " " ++ code ++ "\n")

/-! ### Helper lemmas -/

theorem appendValue_extend (b : String) (arg : GoVal) :
    appendValue b arg = b ++ appendValue "" arg := by
  cases arg <;> simp [appendValue, String.append_assoc]

theorem argsDetail_extend (args : List GoVal) :
    ∀ b : String, argsDetail b args = b ++ argsDetail "" args := by
  induction args with
  | nil => intro b; rw [argsDetail, argsDetail, String.append_empty]
  | cons a rest ih =>
    intro b
    cases rest with
    | nil =>
      show argsDetail b [a] = b ++ argsDetail "" [a]
      rw [argsDetail, argsDetail]
      exact appendValue_extend b a
    | cons a2 rest2 =>
      have h1 : argsDetail b (a :: a2 :: rest2)
          = argsDetail (appendValue b a ++ ", ") (a2 :: rest2) := by
        rw [argsDetail]
        simp
      have h2 : argsDetail "" (a :: a2 :: rest2)
          = argsDetail (appendValue "" a ++ ", ") (a2 :: rest2) := by
        rw [argsDetail]
        simp
      rw [h1, h2, ih, ih (appendValue "" a ++ ", "), appendValue_extend b a]
      simp [String.append_assoc]

theorem errMsg_frame (cause : GoError) (fn : String) (args : List GoVal)
    (code : String) (file : String) (line : Int) :
    errMsg (.frame cause fn args code file line) = errorDetail "" cause fn args code file line := by
  rw [errMsg]

theorem errorDetail_of_frame (b : String) (c2 : GoError) (fn2 : String) (args2 : List GoVal)
    (code2 : String) (file2 : String) (line2 : Int) (fn : String) (args : List GoVal)
    (code : String) (file : String) (line : Int) :
    errorDetail b (.frame c2 fn2 args2 code2 file2 line2) fn args code file line
      = errorDetail b c2 fn2 args2 code2 file2 line2 ++ stackEntry fn args code file line := by
  rw [errorDetail]
  rw [argsDetail_extend]
  simp only [stackEntry]
  simp [String.append_assoc]

theorem errorDetail_of_base (b : String) (cause : GoError) (h : isFrame cause = false)
    (fn : String) (args : List GoVal) (code : String) (file : String) (line : Int) :
    errorDetail b cause fn args code file line
      = b ++ errMsg cause ++ stackBanner ++ stackEntry fn args code file line := by
  have hmain : ∀ c : GoError, isFrame c = false →
      errorDetail b c fn args code file line
        = b ++ errMsg c ++ stackBanner ++ stackEntry fn args code file line := by
    intro c hc
    cases c with
    | frame c2 fn2 args2 code2 file2 line2 => simp [isFrame] at hc
    | leaf msg =>
      rw [errorDetail]
      · rw [argsDetail_extend]
        simp only [stackBanner, stackEntry]
        simp [String.append_assoc]
      · simp
    | notFound category =>
      rw [errorDetail]
      · rw [argsDetail_extend]
        simp only [stackBanner, stackEntry]
        simp [String.append_assoc]
      · simp
    | list es =>
      rw [errorDetail]
      · rw [argsDetail_extend]
        simp only [stackBanner, stackEntry]
        simp [String.append_assoc]
      · simp
    | custom msg summ cause2 =>
      rw [errorDetail]
      · rw [argsDetail_extend]
        simp only [stackBanner, stackEntry]
        simp [String.append_assoc]
      · simp
  exact hmain cause h

theorem strConcat_append (xs ys : List String) :
    strConcat (xs ++ ys) = strConcat xs ++ strConcat ys := by
  induction xs with
  | nil => simp [strConcat]
  | cons x xs ih => simp [strConcat, ih, String.append_assoc]

theorem chainOut_isFrame (root : GoError) (m : FrameMeta) (ms : List FrameMeta) :
    isFrame (chainOut root (m :: ms)) = true := by
  simp [chainOut, isFrame]

theorem errMsg_chainOut (root : GoError) (h : isFrame root = false) :
    ∀ ms : List FrameMeta, ms ≠ [] →
      errMsg (chainOut root ms)
        = errMsg root ++ stackBanner ++ strConcat ((ms.reverse).map stackEntryM) := by
  intro ms
  induction ms with
  | nil => intro hne; exact absurd rfl hne
  | cons m ms ih =>
    intro _
    cases ms with
    | nil =>
      rw [chainOut, chainOut, errMsg_frame, errorDetail_of_base "" root h]
      simp [strConcat, stackEntryM, String.append_assoc]
    | cons m2 ms2 =>
      rw [chainOut, errMsg_frame]
      have hfr : ∃ c2 fn2 args2 code2 file2 line2,
          chainOut root (m2 :: ms2) = .frame c2 fn2 args2 code2 file2 line2 := by
        refine ⟨chainOut root ms2, m2.fn, m2.args, m2.code, m2.file, m2.line, ?_⟩
        rfl
      obtain ⟨c2, fn2, args2, code2, file2, line2, hc⟩ := hfr
      rw [hc, errorDetail_of_frame, ← errMsg_frame, ← hc, ih (by simp)]
      simp [stackEntryM, strConcat_append, strConcat, String.append_assoc]

theorem errMsgList_eq_map (es : List GoError) : errMsgList es = es.map errMsg := by
  induction es with
  | nil => simp [errMsgList]
  | cons e es ih => simp [errMsgList, ih]

theorem summaryList_eq_map (es : List GoError) : summaryList es = es.map summary := by
  induction es with
  | nil => simp [summaryList]
  | cons e es ih => simp [summaryList, ih]

theorem summary_chainOut (root : GoError) :
    ∀ ms : List FrameMeta, summary (chainOut root ms) = summary root := by
  intro ms
  induction ms with
  | nil => rfl
  | cons m ms ih => rw [chainOut, summary, ih]

theorem quoteChar_length_le (c : Char) : (quoteChar c).length ≤ 4 := by
  unfold quoteChar
  split_ifs <;> first
    | decide
    | (rw [String.length_append]; rw [show (hexByte c.toNat).length = 2 from rfl]; decide)
    | (rw [show (String.singleton c).length = 1 from rfl]; decide)

theorem quoteBody_length_le (l : List Char) : (quoteBody l).length ≤ 4 * l.length := by
  induction l with
  | nil => simp [quoteBody]
  | cons c cs ih =>
    rw [quoteBody, String.length_append]
    have := quoteChar_length_le c
    simp only [List.length_cons]
    omega

theorem quoteBody_length_of_plain (l : List Char)
    (h : ∀ c ∈ l, quoteChar c = String.singleton c) : (quoteBody l).length = l.length := by
  induction l with
  | nil => simp [quoteBody]
  | cons c cs ih =>
    rw [quoteBody, String.length_append, h c (List.mem_cons_self c cs),
      show (String.singleton c).length = 1 from rfl, ih fun x hx => h x (List.mem_cons_of_mem c hx)]
    simp only [List.length_cons]
    omega

theorem goQuote_length_le (s : String) : (goQuote s).length ≤ 2 + 4 * s.length := by
  rw [goQuote, String.length_append, String.length_append]
  have := quoteBody_length_le s.data
  have hd : s.length = s.data.length := rfl
  rw [show ("\"" : String).length = 1 from rfl]
  omega

theorem trunc_length (s : String) (h : s.length > 32) :
    (s.take 16 ++ "..." ++ s.drop (s.length - 16)).length = 35 := by
  rw [String.length_append, String.length_append]
  have h1 : (s.take 16).length = (s.data.take 16).length := by
    rw [← String.length_data, String.data_take]
  have h2 : (s.drop (s.length - 16)).length = (s.data.drop (s.length - 16)).length := by
    rw [← String.length_data, String.data_drop]
  have hd : s.length = s.data.length := (String.length_data s).symm
  rw [h1, h2, List.length_take, List.length_drop]
  rw [show ("..." : String).length = 3 from rfl]
  omega

theorem edf_of_lt (n : Nat) :
    ∀ cause : GoError, frameDepth cause < n →
      ∀ (b fn : String) (args : List GoVal) (code file : String) (line : Int),
        errorDetailFuel n b cause fn args code file line
          = some (errorDetail b cause fn args code file line) := by
  induction n with
  | zero => intro cause h; omega
  | succ n ih =>
    intro cause h b fn args code file line
    cases cause with
    | frame c2 fn2 args2 code2 file2 line2 =>
      have hd : frameDepth c2 < n := by
        rw [frameDepth] at h
        omega
      rw [errorDetailFuel]
      simp only [ih c2 hd]
      rw [errorDetail_of_frame]
      rw [argsDetail_extend]
      simp only [stackEntry]
      simp [String.append_assoc]
    | leaf msg =>
      rw [errorDetailFuel]
      · rw [errorDetail_of_base b (.leaf msg) rfl]
        rw [argsDetail_extend]
        simp only [stackBanner, stackEntry]
        simp [String.append_assoc]
      · simp
    | notFound category =>
      rw [errorDetailFuel]
      · rw [errorDetail_of_base b (.notFound category) rfl]
        rw [argsDetail_extend]
        simp only [stackBanner, stackEntry]
        simp [String.append_assoc]
      · simp
    | list es =>
      rw [errorDetailFuel]
      · rw [errorDetail_of_base b (.list es) rfl]
        rw [argsDetail_extend]
        simp only [stackBanner, stackEntry]
        simp [String.append_assoc]
      · simp
    | custom msg summ cause2 =>
      rw [errorDetailFuel]
      · rw [errorDetail_of_base b (.custom msg summ cause2) rfl]
        rw [argsDetail_extend]
        simp only [stackBanner, stackEntry]
        simp [String.append_assoc]
      · simp

theorem isNotFound_eq : ∀ e : GoError, IsNotFound e = isNotFoundLeaf (unwrapAll e)
  | .frame c _ _ _ _ _ => by
      rw [IsNotFound, unwrapAll]
      exact isNotFound_eq c
  | .custom m s (some c) => by
      rw [IsNotFound, unwrapAll]
      exact isNotFound_eq c
  | .leaf m => by simp [IsNotFound, unwrapAll, isNotFoundLeaf]
  | .notFound cat => by simp [IsNotFound, unwrapAll, isNotFoundLeaf]
  | .list es => by simp [IsNotFound, unwrapAll, isNotFoundLeaf]
  | .custom m s none => by simp [IsNotFound, unwrapAll, isNotFoundLeaf]
termination_by e => sizeOf e
decreasing_by all_goals (simp_wf; try omega)

theorem isNotFound_chainOut (cat : String) :
    ∀ ms : List FrameMeta, IsNotFound (chainOut (.notFound cat) ms) = true := by
  intro ms
  induction ms with
  | nil => rw [chainOut, IsNotFound]
  | cons m ms ih => rw [chainOut, IsNotFound, ih]

theorem goErr_nonframe (e : GoError) (h : isFrame e = false) : goErr e = e := by
  cases e <;> simp_all [isFrame, goErr]

theorem goErr_chainOut (root : GoError) (h : isFrame root = false) :
    ∀ ms : List FrameMeta, goErr (chainOut root ms) = root := by
  intro ms
  induction ms with
  | nil => exact goErr_nonframe root h
  | cons m ms ih => rw [chainOut, goErr, ih]

/-! ### Claims -/

/-- C1: for every chain of k ≥ 1 nested Frames over a non-Frame root cause,
`Error()` is the root's message, then the fixed banner
`"\n\n===> errors stack:\n"`, then exactly the k stack entries in wrap order
(innermost frame's entry first, outermost last), each entry being
`Func "(" comma-and-space-joined args ")\n\t" File ":" Line " " Code "\n"`;
and the spec's `writeBlock(42, "cache")` / `ENOSPC` over `New("disk full")`
example renders exactly as its example string. -/
theorem frame_error_renders_stack :
    (∀ (root : GoError) (ms : List FrameMeta), isFrame root = false → ms ≠ [] →
      errMsg (chainOut root ms)
        = errMsg root ++ stackBanner ++ strConcat ((ms.reverse).map stackEntryM))
    ∧ errMsg (.frame (.leaf "disk full") "writeBlock" [.vint 42, .vstr "cache"] "ENOSPC"
          "file.go" 10)
        = "disk full\n\n===> errors stack:\nwriteBlock(42, \"cache\")\n\tfile.go:10 ENOSPC\n" := by
  constructor
  · intro root ms h hne
    exact errMsg_chainOut root h ms hne
  · simp [errMsg, errorDetail, argsDetail, appendValue, goQuote, quoteBody, quoteChar]
    decide

/-- Witness for C1: a two-frame chain over the leaf `"boom"` renders as the
leaf message, the banner, and the two entries innermost-first. -/
theorem frame_error_renders_stack_check :
    errMsg (chainOut (.leaf "boom")
        [⟨"g", [], "C2", "b.go", 2⟩, ⟨"f", [.goNil], "C1", "a.go", 1⟩])
      = errMsg (.leaf "boom") ++ stackBanner
          ++ strConcat ((([⟨"g", [], "C2", "b.go", 2⟩, ⟨"f", [.goNil], "C1", "a.go", 1⟩]
              : List FrameMeta).reverse).map stackEntryM) :=
  frame_error_renders_stack.1 (.leaf "boom")
    [⟨"g", [], "C2", "b.go", 2⟩, ⟨"f", [.goNil], "C1", "a.go", 1⟩] rfl (by simp)

/-- C2: `Frame.Summary()` always delegates to the Summary of its cause,
recursively: a chain of any number of Frames over a root summarises as the
root does — the root's own Summary when it exposes the capability, its plain
message otherwise — and the Frame contributes no text of its own. -/
theorem frame_summary_delegates_to_cause :
    (∀ (cause : GoError) (fn : String) (args : List GoVal) (code file : String) (line : Int),
        summary (.frame cause fn args code file line) = summary cause)
    ∧ (∀ (root : GoError) (ms : List FrameMeta), summary (chainOut root ms) = summary root)
    ∧ (∀ (m s : String) (c : Option GoError), summary (.custom m (some s) c) = s)
    ∧ (∀ (m : String) (c : Option GoError), summary (.custom m none c) = m)
    ∧ (∀ m : String, summary (.leaf m) = m) := by
  refine ⟨?_, ?_, ?_, ?_, ?_⟩
  · intro cause fn args code file line
    rw [summary]
  · intro root ms
    exact summary_chainOut root ms
  · intro m s c
    rw [summary]
  · intro m c
    rw [summary]
  · intro m
    rw [summary]

/-- C3 — the claim that the renderer is total and can never panic for values
of any named or user-defined type FAILS on the code: on the full argument
universe, the rendering succeeds for every shape except exactly one — a
string-kind value whose dynamic type is a named type rather than `string`
itself, where the `arg.(string)` assertion panics (modelled as `none`). On
exact `string` values it agrees with the total sub-universe renderer
`appendValue`. -/
theorem appendValue_named_string_kind_panics :
    (∀ b s : String, appendValueK b (.vstr s false) = none)
    ∧ (∀ b s : String, appendValueK b (.vstr s true) = some (appendValue b (.vstr s)))
    ∧ (∀ (b : String) (arg : GoValK),
        appendValueK b arg = none ↔ ∃ s : String, arg = .vstr s false) := by
  refine ⟨?_, ?_, ?_⟩
  · intro b s
    simp [appendValueK]
  · intro b s
    simp [appendValueK, appendValue]
  · intro b arg
    cases arg with
    | goNil => simp [appendValueK]
    | vbool v => simp [appendValueK]
    | vint n => simp [appendValueK]
    | vnum r => simp [appendValueK]
    | vstr s ex =>
      cases ex with
      | false => simp [appendValueK]
      | true => simp [appendValueK]
    | varr => simp [appendValueK]
    | vstruct => simp [appendValueK]
    | vptr addr => simp [appendValueK]

/-- C4: a nil argument renders as exactly `"nil"`; a string argument longer
than 32 characters is first truncated to its first 16 characters, `"..."`,
and its last 16 characters, then quoted; a string of at most 32 characters is
quoted whole; the rendered token never exceeds 142 characters regardless of
the input's length (2 quote characters plus at most 4 output characters per
kept input character), and equals exactly 37 characters for any long string
whose characters need no escaping — the "roughly 40" bound. -/
theorem appendValue_text_bounded :
    (∀ b : String, appendValue b .goNil = b ++ "nil")
    ∧ (∀ s : String, s.length > 32 →
        appendValue "" (.vstr s) = goQuote (s.take 16 ++ "..." ++ s.drop (s.length - 16)))
    ∧ (∀ s : String, s.length ≤ 32 → appendValue "" (.vstr s) = goQuote s)
    ∧ (∀ s : String, (appendValue "" (.vstr s)).length ≤ 142)
    ∧ (∀ s : String, (∀ c ∈ s.data, quoteChar c = String.singleton c) → s.length > 32 →
        (appendValue "" (.vstr s)).length = 37) := by
  have hlong : ∀ s : String, s.length > 32 →
      appendValue "" (.vstr s) = goQuote (s.take 16 ++ "..." ++ s.drop (s.length - 16)) := by
    intro s hlen
    rw [appendValue]
    simp [hlen]
  have hshort : ∀ s : String, s.length ≤ 32 → appendValue "" (.vstr s) = goQuote s := by
    intro s hlen
    rw [appendValue]
    have : ¬ s.length > 32 := by omega
    simp [this]
  refine ⟨?_, hlong, hshort, ?_, ?_⟩
  · intro b
    rw [appendValue]
  · intro s
    by_cases hlen : s.length > 32
    · rw [hlong s hlen]
      have hb := goQuote_length_le (s.take 16 ++ "..." ++ s.drop (s.length - 16))
      rw [trunc_length s hlen] at hb
      omega
    · rw [hshort s (by omega)]
      have hb := goQuote_length_le s
      omega
  · intro s hplain hlen
    rw [hlong s hlen]
    have hdata : (s.take 16 ++ "..." ++ s.drop (s.length - 16)).data
        = (s.data.take 16 ++ ['.', '.', '.']) ++ s.data.drop (s.length - 16) := by
      rw [String.data_append, String.data_append, String.data_take, String.data_drop]
    have hplain2 : ∀ c ∈ (s.take 16 ++ "..." ++ s.drop (s.length - 16)).data,
        quoteChar c = String.singleton c := by
      intro c hc
      rw [hdata] at hc
      rcases List.mem_append.1 hc with hc1 | hc2
      · rcases List.mem_append.1 hc1 with hc3 | hc4
        · exact hplain c (List.take_subset 16 s.data hc3)
        · have : c = '.' := by
            simp at hc4
            exact hc4
          rw [this]
          decide
      · exact hplain c (List.drop_subset (s.length - 16) s.data hc2)
    rw [goQuote, String.length_append, String.length_append]
    rw [quoteBody_length_of_plain _ hplain2]
    have hlist : (s.take 16 ++ "..." ++ s.drop (s.length - 16)).data.length
        = (s.take 16 ++ "..." ++ s.drop (s.length - 16)).length := String.length_data _
    rw [hlist, trunc_length s hlen]
    rfl

/-- Witness for C4: the 33-character string of the lowercase alphabet
followed by seven digits is truncated to first-16 + `"..."` + last-16 before
quoting. -/
theorem appendValue_text_bounded_check :
    appendValue "" (.vstr "abcdefghijklmnopqrstuvwxyz0123456")
      = goQuote ("abcdefghijklmnopqrstuvwxyz0123456".take 16 ++ "..."
          ++ "abcdefghijklmnopqrstuvwxyz0123456".drop
              ("abcdefghijklmnopqrstuvwxyz0123456".length - 16)) :=
  appendValue_text_bounded.2.1 "abcdefghijklmnopqrstuvwxyz0123456" (by decide)

/-- C5: `List.Error()` is the empty string for 0 elements, the single
element's own `Error()` for 1 element, and the elements' `Error()`s joined
with a newline separator in insertion order for 2 or more; `List.Summary()`
follows the same arity rules with the recursive Summary contract per
element. -/
theorem list_error_and_summary_arity :
    (errMsg (.list []) = "")
    ∧ (∀ e : GoError, errMsg (.list [e]) = errMsg e)
    ∧ (∀ (a b : GoError) (l : List GoError),
        errMsg (.list (a :: b :: l)) = String.intercalate "\n" ((a :: b :: l).map errMsg))
    ∧ (summary (.list []) = "")
    ∧ (∀ e : GoError, summary (.list [e]) = summary e)
    ∧ (∀ (a b : GoError) (l : List GoError),
        summary (.list (a :: b :: l)) = String.intercalate "\n" ((a :: b :: l).map summary)) := by
  refine ⟨?_, ?_, ?_, ?_, ?_, ?_⟩
  · simp [errMsg]
  · intro e
    simp [errMsg]
  · intro a b l
    simp [errMsg, errMsgList_eq_map]
  · simp [summary]
  · intro e
    simp [summary]
  · intro a b l
    simp [summary, summaryList_eq_map]

/-- C6: `List.ToError()` is absent (`none`) for 0 elements, the single
element itself — not wrapped in a list — for exactly 1 element, and the list
value itself for 2 or more elements. -/
theorem list_toError_arity :
    (toError [] = none)
    ∧ (∀ e : GoError, toError [e] = some e)
    ∧ (∀ (a b : GoError) (l : List GoError), toError (a :: b :: l) = some (.list (a :: b :: l))) := by
  refine ⟨?_, ?_, ?_⟩
  · simp [toError]
  · intro e
    simp [toError]
  · intro a b l
    simp [toError]

/-- C7: `IsNotFound` follows the chain-unwrap capability to its fixpoint and
returns true exactly when the final value is a `*NotFound` instance: true for
a NotFound leaf, true for that leaf under any number of Frames, false for
every other chain. -/
theorem isNotFound_chain_walk :
    (∀ e : GoError, IsNotFound e = isNotFoundLeaf (unwrapAll e))
    ∧ (∀ cat : String, IsNotFound (.notFound cat) = true)
    ∧ (∀ (cat : String) (ms : List FrameMeta),
        IsNotFound (chainOut (.notFound cat) ms) = true) := by
  refine ⟨isNotFound_eq, ?_, ?_⟩
  · intro cat
    rw [IsNotFound]
  · intro cat ms
    exact isNotFound_chainOut cat ms

/-- C8: `Err` unwraps through Frame-typed causes only: it maps a frame to the
`Err` of its cause, strips any chain of Frames down to the innermost
non-Frame cause, returns every non-Frame error unchanged — including an
unwrap-capable custom error, whose cause it does NOT follow (the asymmetry
with `IsNotFound`). -/
theorem err_unwraps_only_frames :
    (∀ (c : GoError) (fn : String) (args : List GoVal) (code file : String) (line : Int),
        goErr (.frame c fn args code file line) = goErr c)
    ∧ (∀ e : GoError, isFrame e = false → goErr e = e)
    ∧ (∀ (root : GoError) (ms : List FrameMeta), isFrame root = false →
        goErr (chainOut root ms) = root)
    ∧ (∀ (m : String) (s : Option String) (c : GoError),
        goErr (.custom m s (some c)) = .custom m s (some c)) := by
  refine ⟨?_, ?_, ?_, ?_⟩
  · intro c fn args code file line
    rw [goErr]
  · intro e h
    exact goErr_nonframe e h
  · intro root ms h
    exact goErr_chainOut root h ms
  · intro m s c
    exact goErr_nonframe _ rfl

/-- Witness for C8: one Frame over an unwrap-capable custom error is stripped
down to the custom error itself, which `Err` does not unwrap further even
though its cause is a NotFound. -/
theorem err_unwraps_only_frames_check :
    goErr (chainOut (.custom "io: timeout" none (some (.notFound "bucket")))
        [⟨"stat", [], "EIO", "s.go", 7⟩])
      = .custom "io: timeout" none (some (.notFound "bucket")) :=
  err_unwraps_only_frames.2.2.1 (.custom "io: timeout" none (some (.notFound "bucket")))
    [⟨"stat", [], "EIO", "s.go", 7⟩] rfl

/-- C9: under the invariant encoded by the inductive `GoError` type — every
frame's cause is present and the chain is acyclic — the recursive detail
rendering terminates for every frame: the fuel-indexed `errorDetailFuel`
already succeeds at fuel `frameDepth cause + 1`, producing the total
`errorDetail` value, and hence `Frame.Error()` is a bounded terminating
computation. -/
theorem errorDetail_terminating :
    (∀ (cause : GoError) (fn : String) (args : List GoVal) (code file : String) (line : Int)
        (b : String),
      errorDetailFuel (frameDepth cause + 1) b cause fn args code file line
        = some (errorDetail b cause fn args code file line))
    ∧ (∀ (cause : GoError) (fn : String) (args : List GoVal) (code file : String) (line : Int),
      errorDetailFuel (frameDepth cause + 1) "" cause fn args code file line
        = some (errMsg (.frame cause fn args code file line))) := by
  constructor
  · intro cause fn args code file line b
    exact edf_of_lt (frameDepth cause + 1) cause (Nat.lt_succ_self _) b fn args code file line
  · intro cause fn args code file line
    rw [errMsg_frame]
    exact edf_of_lt (frameDepth cause + 1) cause (Nat.lt_succ_self _) "" fn args code file line

/-- C10: `IsNotFound` applied to a List is always false — the list type has no
chain-unwrap capability and is never a `*NotFound` instance, and the elements
are never inspected, even when they contain a NotFound; in particular a list
of length ≥ 2 collapsed by `ToError` yields the list itself, on which
`IsNotFound` is false. -/
theorem isNotFound_ignores_list_elements :
    (∀ es : List GoError, IsNotFound (.list es) = false)
    ∧ (∀ (a b : GoError) (l : List GoError),
        toError (a :: b :: l) = some (.list (a :: b :: l))
          ∧ IsNotFound (.list (a :: b :: l)) = false)
    ∧ IsNotFound (.list [.notFound "bucket"]) = false := by
  refine ⟨?_, ?_, ?_⟩
  · intro es
    simp [IsNotFound]
  · intro a b l
    exact ⟨by simp [toError], by simp [IsNotFound]⟩
  · simp [IsNotFound]

end QiniuErrors
